import Mathlib

/- Shallow embedding of the A600 keyboard-controller firmware (src/main.c):
   the event ring buffer shared between the 200 Hz scan interrupt and the
   main dispatch loop, the per-key debounce filter, typematic repeat, the
   caps-lock latch and the serial command protocol.  Hardware port reads are
   abstracted as input functions (one byte per row/bank strobe); all machine
   bytes are Nat with explicit masking where the C code masks. -/

namespace Keyboard

set_option maxRecDepth 5000

/- Size of event buffer (main.c line 32). -/
def BUFFER_SIZE : Nat := 16

/- Cycles a key must be stable to generate an event (main.c line 35). -/
def STEADY_THRESH : Nat := 5

/- Command bit fields (main.c lines 44-48). -/
def COM_TYPE_MASK : Nat := 0xC0
def COM_TYPE_REGULAR : Nat := 0x00
def COM_TYPE_DELAY : Nat := 0x40
def COM_TYPE_RATE : Nat := 0x80
def COM_VALUE_MASK : Nat := 0x3F

/- Regular command values (main.c lines 50-56). -/
def COM_RED_LED_OFF : Nat := 0
def COM_RED_LED_ON : Nat := 1
def COM_GREEN_LED_OFF : Nat := 2
def COM_GREEN_LED_ON : Nat := 3
def COM_BLUE_LED_OFF : Nat := 4
def COM_BLUE_LED_ON : Nat := 5
def COM_INIT : Nat := 6

/- Caps lock scancode (main.c line 59). -/
def KEY_CAPS_LOCK : Nat := 0x30

/- Default typematic speeds (main.c lines 62-63). -/
def DEFAULT_TYPEMATIC_DELAY : Nat := 63 <<< 2
def DEFAULT_TYPEMATIC_RATE : Nat := 25 <<< 2

/- Scancode from row, bank and column (main.c line 41). -/
def GETSCAN (row bank col : Nat) : Nat := (row <<< 4) ||| (bank <<< 3) ||| col

/- The whole mutable state of the program: the C globals (main.c lines
   76-88), the locals of main that persist across loop iterations (lines
   120-122) and the two LED outputs (PORTE low three bits, PORTB bit 7). -/
structure MState where
  readpointer : Nat
  writepointer : Nat
  keybuffer : List Nat
  keystate : List Nat
  steadycounts : List Nat
  typematicdelay : Nat
  typematicrate : Nat
  keydowntimer : Nat
  lastevent : Nat
  capslockon : Bool
  portE : Nat
  capsLED : Bool
deriving Repr, DecidableEq

/- Enqueue one event byte: main.c lines 366-375 (the write at a debounce
   commit followed by the masked advance of writepointer). -/
def push (ev : Nat) (s : MState) : MState :=
  { s with keybuffer := s.keybuffer.set s.writepointer ev,
           writepointer := (s.writepointer + 1) &&& (BUFFER_SIZE - 1) }

/- The body of the innermost ISR loop for one key (main.c lines 338-382):
   raw-transition detection that immediately retargets the keystate bit and
   restarts the steadiness counter, then the threshold test that commits an
   event and the counter increment.  inByte is the sampled port byte,
   instrobe the single-bit column mask (1 <<< col). -/
def scanKey (inByte instrobe scancode : Nat) (s : MState) : MState :=
  let s1 :=
    if inByte &&& instrobe = 0 then
      -- Key down
      if (s.keystate.getD (scancode >>> 3) 0) &&& instrobe = 0 then
        { s with steadycounts := s.steadycounts.set scancode 1,
                 keystate := s.keystate.set (scancode >>> 3)
                   ((s.keystate.getD (scancode >>> 3) 0) ||| instrobe) }
      else s
    else
      -- Key up
      if (s.keystate.getD (scancode >>> 3) 0) &&& instrobe ≠ 0 then
        { s with steadycounts := s.steadycounts.set scancode 1,
                 keystate := s.keystate.set (scancode >>> 3)
                   ((s.keystate.getD (scancode >>> 3) 0) &&& (0xFF ^^^ instrobe)) }
      else s
  if s1.steadycounts.getD scancode 0 > STEADY_THRESH then
    let ev :=
      if (s1.keystate.getD (scancode >>> 3) 0) &&& instrobe = 0 then
        scancode ||| 0x80
      else
        scancode
    let s2 := push ev s1
    { s2 with steadycounts := s2.steadycounts.set scancode 0 }
  else if s1.steadycounts.getD scancode 0 > 0 then
    let c1 := s1.steadycounts.getD scancode 0 + 1
    { s1 with steadycounts := s1.steadycounts.set scancode c1 }
  else s1

/- One bank of one row of the scan: the col loop (main.c lines 336-385),
   with instrobe starting at 1 and shifting left once per column. -/
def scanBank (inByte row bank ncols : Nat) (s : MState) : MState :=
  (List.range ncols).foldl
    (fun t col => scanKey inByte (1 <<< col) (GETSCAN row bank col) t) s

/- One full scan cycle, ISR(TIMER1_COMPA_vect) (main.c lines 301-389).
   inp row bank abstracts the sampled input port while that row is strobed:
   rows 0-4 read PINA (bank 0, 8 columns) and PINB (bank 1, 7 columns),
   row 5 reads PINC (bank 0, 8 columns).  A low bit means pressed. -/
def isr (inp : Nat → Nat → Nat) (s : MState) : MState :=
  (List.range 6).foldl
    (fun t row =>
      if row < 5 then
        scanBank (inp row 1) row 1 7 (scanBank (inp row 0) row 0 8 t)
      else
        scanBank (inp row 0) row 0 8 t) s

/- A sequence of scan cycles, one input function per cycle. -/
def runScan (inps : List (Nat → Nat → Nat)) (s : MState) : MState :=
  inps.foldl (fun t f => isr f t) s

/- Main-loop queue poll (main.c lines 127-135): pointerdiff is the
   unsigned-char difference of the cursors; when nonzero the head event is
   loaded into lastevent and readpointer advances under the mask.  The Bool
   reports whether an event was popped. -/
def pollEvent (s : MState) : MState × Bool :=
  let pointerdiff := (s.writepointer + 256 - s.readpointer) % 256
  if pointerdiff ≠ 0 then
    ({ s with lastevent := s.keybuffer.getD s.readpointer 0,
              readpointer := (s.readpointer + 1) &&& (BUFFER_SIZE - 1) }, true)
  else (s, false)

/- Pop until the queue reports empty (fuel-bounded; the cursor distance
   never exceeds BUFFER_SIZE so BUFFER_SIZE fuel is always enough). -/
def drainAux : Nat → MState → List Nat
  | 0, _ => []
  | fuel + 1, s =>
    match pollEvent s with
    | (t, true) => t.lastevent :: drainAux fuel t
    | (_, false) => []

def drain (s : MState) : List Nat := drainAux BUFFER_SIZE s

def pushAll (s : MState) (l : List Nat) : MState :=
  l.foldl (fun t e => push e t) s

/- Event handling after a pop (main.c lines 137-176): typematic arming,
   then the caps-lock latch or the plain write of the scancode to the host.
   The returned list is the bytes written to the UART. -/
def handleEvent (s : MState) : MState × List Nat :=
  let s1 :=
    if s.lastevent &&& 0x80 = 0 ∧ s.lastevent &&& 0x70 ≠ 0x50 ∧
        s.lastevent ≠ KEY_CAPS_LOCK then
      { s with keydowntimer := s.typematicdelay }
    else
      { s with keydowntimer := 0 }
  if s1.lastevent &&& 0x7F = KEY_CAPS_LOCK then
    if s1.lastevent &&& 0x80 = 0 then
      if s1.capslockon = false then
        ({ s1 with capslockon := true, capsLED := true }, [KEY_CAPS_LOCK])
      else
        ({ s1 with capslockon := false, capsLED := false },
         [KEY_CAPS_LOCK ||| 0x80])
    else (s1, [])
  else (s1, [s1.lastevent])

/- Typematic countdown tick (main.c lines 179-191): while the timer runs it
   is decremented, and on reaching zero the last event is rewritten to the
   host and the timer is reloaded with the literal 100. -/
def typematicTick (s : MState) : MState × List Nat :=
  if s.keydowntimer > 0 then
    let k := s.keydowntimer - 1
    if k = 0 then ({ s with keydowntimer := 100 }, [s.lastevent])
    else ({ s with keydowntimer := k }, [])
  else (s, [])

/- initkeybuffer (main.c lines 283-298): clears the keystate bitmap, both
   queue cursors and the debounce counters, restores the default typematic
   speeds, and blanks the RGB and caps-lock LEDs. -/
def initkeybuffer (s : MState) : MState :=
  { s with keystate := List.replicate 16 0,
           readpointer := 0,
           writepointer := 0,
           steadycounts := List.replicate 128 0,
           typematicdelay := DEFAULT_TYPEMATIC_DELAY,
           typematicrate := DEFAULT_TYPEMATIC_RATE,
           portE := 0,
           capsLED := false }

/- Command-byte processing (main.c lines 194-245): split the byte into a
   2-bit type and 6-bit value; REGULAR commands drive the LEDs or
   re-initialize, DELAY and RATE store value <<< 2, everything else is
   ignored. -/
def processCommand (incommand : Nat) (s : MState) : MState :=
  let commandtype := incommand &&& COM_TYPE_MASK
  let commandvalue := incommand &&& COM_VALUE_MASK
  if commandtype = COM_TYPE_REGULAR then
    if commandvalue = COM_RED_LED_OFF then { s with portE := s.portE &&& 0xFB }
    else if commandvalue = COM_RED_LED_ON then { s with portE := s.portE ||| 0x04 }
    else if commandvalue = COM_GREEN_LED_OFF then { s with portE := s.portE &&& 0xFD }
    else if commandvalue = COM_GREEN_LED_ON then { s with portE := s.portE ||| 0x02 }
    else if commandvalue = COM_BLUE_LED_OFF then { s with portE := s.portE &&& 0xFE }
    else if commandvalue = COM_BLUE_LED_ON then { s with portE := s.portE ||| 0x01 }
    else if commandvalue = COM_INIT then
      { initkeybuffer s with capslockon := false }
    else s
  else if commandtype = COM_TYPE_DELAY then
    { s with typematicdelay := commandvalue <<< 2 }
  else if commandtype = COM_TYPE_RATE then
    { s with typematicrate := commandvalue <<< 2 }
  else s

/- State at the top of the main loop: zero-initialized C globals and main
   locals (main.c lines 76-88, 120-122), after the initkeybuffer call at
   line 116. -/
def boot : MState :=
  { readpointer := 0, writepointer := 0,
    keybuffer := List.replicate 16 0,
    keystate := List.replicate 16 0,
    steadycounts := List.replicate 128 0,
    typematicdelay := 0, typematicrate := 0,
    keydowntimer := 0, lastevent := 0, capslockon := false,
    portE := 0, capsLED := false }

def initState : MState := initkeybuffer boot

/- Per-key core of one ISR visit to one scancode (main.c lines 340-382),
   with the key's keystate bit and steadiness counter made explicit:
   raw is the sampled level (true = contact closed), st the keystate bit,
   cnt the steadycounts entry.  Returns the new bit and counter and the
   direction of the event committed this cycle, if any (true = down). -/
def debStep (raw st : Bool) (cnt : Nat) : (Bool × Nat) × Option Bool :=
  let stcnt :=
    if raw then
      if st = false then (true, 1) else (st, cnt)
    else
      if st = true then (false, 1) else (st, cnt)
  if stcnt.2 > STEADY_THRESH then ((stcnt.1, 0), some stcnt.1)
  else if stcnt.2 > 0 then ((stcnt.1, stcnt.2 + 1), none)
  else (stcnt, none)

/- A key's trace across scan cycles: iterate debStep over a list of raw
   samples, collecting the directions of the committed events. -/
def debRun (st : Bool) (cnt : Nat) : List Bool → (Bool × Nat) × List Bool
  | [] => ((st, cnt), [])
  | r :: rs =>
    match debStep r st cnt with
    | ((st1, cnt1), ev) =>
      match debRun st1 cnt1 rs with
      | (fin, evs) =>
        (fin, match ev with
              | none => evs
              | some d => d :: evs)

/- ------------------------------------------------------------------ -/
/- List access helper lemmas.                                         -/
/- ------------------------------------------------------------------ -/

theorem getD_set_eq (l : List Nat) (i e : Nat) (h : i < l.length) :
    (l.set i e).getD i 0 = e := by
  induction l generalizing i with
  | nil => simp at h
  | cons a t ih =>
    cases i with
    | zero => rfl
    | succ j => simpa using ih j (by simpa using h)

theorem getD_set_ne (l : List Nat) (i j e : Nat) (h : i ≠ j) :
    (l.set i e).getD j 0 = l.getD j 0 := by
  induction l generalizing i j with
  | nil => rfl
  | cons a t ih =>
    cases i with
    | zero =>
      cases j with
      | zero => exact absurd rfl h
      | succ j2 => rfl
    | succ i2 =>
      cases j with
      | zero => rfl
      | succ j2 => simpa using ih i2 j2 (by omega)

theorem getD_append_lt (l1 l2 : List Nat) (i : Nat) (h : i < l1.length) :
    (l1 ++ l2).getD i 0 = l1.getD i 0 := by
  induction l1 generalizing i with
  | nil => simp at h
  | cons a t ih =>
    cases i with
    | zero => rfl
    | succ j => simpa using ih j (by simpa using h)

theorem getD_append_len (l1 : List Nat) (e : Nat) :
    (l1 ++ [e]).getD l1.length 0 = e := by
  induction l1 with
  | nil => rfl
  | cons a t ih => simp [ih]

theorem and_fifteen_of_le (x : Nat) (h : x ≤ 16) : x &&& 15 = x % 16 := by
  interval_cases x <;> decide

/- ------------------------------------------------------------------ -/
/- Ring buffer refinement: reprQ relates the cursor/array state to    -/
/- the abstract list of unread events the main loop will observe.     -/
/- ------------------------------------------------------------------ -/

def reprQ (s : MState) (q : List Nat) : Prop :=
  s.readpointer < 16 ∧ s.writepointer < 16 ∧ s.keybuffer.length = 16 ∧
  q.length = (s.writepointer + 16 - s.readpointer) % 16 ∧
  ∀ i, i < q.length →
    s.keybuffer.getD ((s.readpointer + i) % 16) 0 = q.getD i 0

/- The abstract effect of one push on the observable queue: it grows in
   order until the cursors collide, at which point the queue is observably
   empty again. -/
def aPush (q : List Nat) (e : Nat) : List Nat :=
  if q.length < BUFFER_SIZE - 1 then q ++ [e] else []

theorem push_repr (s : MState) (q : List Nat) (e : Nat) (h : reprQ s q) :
    reprQ (push e s) (aPush q e) := by
  obtain ⟨hr, hw, hlen, hq, hidx⟩ := h
  have hmask : (s.writepointer + 1) &&& 15 = (s.writepointer + 1) % 16 :=
    and_fifteen_of_le _ (by omega)
  have hql : q.length ≤ 15 := by omega
  unfold push aPush reprQ BUFFER_SIZE
  simp only [hmask, List.length_set]
  by_cases hlt : q.length < 16 - 1
  · rw [if_pos hlt]
    refine ⟨hr, by omega, hlen, by simp; omega, ?_⟩
    intro i hi
    simp only [List.length_append, List.length_singleton] at hi
    by_cases hieq : i = q.length
    · subst hieq
      have hW : (s.readpointer + q.length) % 16 = s.writepointer := by omega
      rw [hW, getD_set_eq _ _ _ (by omega), getD_append_len]
    · have hi2 : i < q.length := by omega
      have hne : s.writepointer ≠ (s.readpointer + i) % 16 := by omega
      rw [getD_set_ne _ _ _ _ hne, getD_append_lt _ _ _ hi2]
      exact hidx i hi2
  · rw [if_neg hlt]
    refine ⟨hr, by omega, hlen, by simp; omega, ?_⟩
    intro i hi
    simp at hi

theorem drainAux_repr (q : List Nat) :
    ∀ (s : MState) (fuel : Nat), reprQ s q → q.length ≤ fuel →
      drainAux fuel s = q := by
  induction q with
  | nil =>
    intro s fuel h _
    obtain ⟨hr, hw, hlen, hq, hidx⟩ := h
    have hwr : s.writepointer = s.readpointer := by
      simp only [List.length_nil] at hq; omega
    have hdiff : (s.writepointer + 256 - s.readpointer) % 256 = 0 := by omega
    cases fuel with
    | zero => rfl
    | succ f => simp [drainAux, pollEvent, hdiff]
  | cons e q2 ih =>
    intro s fuel h hfuel
    obtain ⟨hr, hw, hlen, hq, hidx⟩ := h
    simp only [List.length_cons] at hq
    have hwr : s.writepointer ≠ s.readpointer := by omega
    have hdiff : (s.writepointer + 256 - s.readpointer) % 256 ≠ 0 := by omega
    cases fuel with
    | zero => simp at hfuel
    | succ f =>
      have hmask : (s.readpointer + 1) &&& 15 = (s.readpointer + 1) % 16 :=
        and_fifteen_of_le _ (by omega)
      have hhead : s.keybuffer.getD s.readpointer 0 = e := by
        have := hidx 0 (by simp)
        simpa [Nat.mod_eq_of_lt hr] using this
      simp only [drainAux, pollEvent, BUFFER_SIZE, if_pos hdiff, hmask]
      rw [hhead]
      congr 1
      apply ih _ f
      · refine ⟨?_, ?_, ?_, ?_, ?_⟩
        · show (s.readpointer + 1) % 16 < 16
          omega
        · show s.writepointer < 16
          exact hw
        · show s.keybuffer.length = 16
          exact hlen
        · show q2.length = (s.writepointer + 16 - (s.readpointer + 1) % 16) % 16
          omega
        · intro i hi
          show s.keybuffer.getD (((s.readpointer + 1) % 16 + i) % 16) 0 =
            q2.getD i 0
          have hidm : ((s.readpointer + 1) % 16 + i) % 16 =
              (s.readpointer + (i + 1)) % 16 := by omega
          rw [hidm]
          have := hidx (i + 1) (by simpa using Nat.succ_lt_succ hi)
          simpa using this
      · simp only [List.length_cons] at hfuel; omega

theorem pushAll_repr (l : List Nat) :
    ∀ (s : MState) (q : List Nat), reprQ s q →
      reprQ (pushAll s l) (l.foldl aPush q) := by
  induction l with
  | nil => intro s q h; exact h
  | cons e l2 ih =>
    intro s q h
    exact ih _ _ (push_repr s q e h)

theorem init_repr : reprQ initState [] := by
  refine ⟨by decide, by decide, by decide, by decide, ?_⟩
  intro i hi
  simp at hi

theorem foldl_aPush_drop (l : List Nat) :
    l.foldl aPush [] = l.drop (l.length - l.length % 16) := by
  induction l using List.reverseRecOn with
  | nil => rfl
  | append_singleton l e ih =>
    rw [List.foldl_append, List.foldl_cons, List.foldl_nil, ih]
    unfold aPush BUFFER_SIZE
    rw [List.length_drop]
    by_cases hc : l.length - (l.length - l.length % 16) < 16 - 1
    · rw [if_pos hc]
      have h1 : (l ++ [e]).length - (l ++ [e]).length % 16 =
          l.length - l.length % 16 := by
        simp only [List.length_append, List.length_singleton]; omega
      rw [h1, List.drop_append_of_le_length (by omega)]
    · rw [if_neg hc]
      have h2 : (l ++ [e]).length ≤
          (l ++ [e]).length - (l ++ [e]).length % 16 := by
        simp only [List.length_append, List.length_singleton]; omega
      rw [List.drop_eq_nil_of_le h2]

/-- C2 counterexample: the claim predicts that after 16 pushes the 16
events pop in push order, and that after 17 pushes the most recent 16
still pop in order with only the oldest lost.  In fact 16 pushes make the
cursors collide so the queue pops as empty, and after 17 pushes only the
single most recent event (17) pops. -/
theorem C2_counterexample :
    drain (pushAll initState ((List.range 16).map (fun k => k + 1))) = [] ∧
    ((List.range 16).map (fun k => k + 1)) ≠ ([] : List Nat) ∧
    drain (pushAll initState ((List.range 17).map (fun k => k + 1))) = [17] ∧
    (((List.range 17).map (fun k => k + 1)).drop 1) ≠ [17] := by
  refine ⟨by decide, by decide, by decide, by decide⟩

/-- C2 amended: push never blocks, and after N pushes into the freshly
initialized queue with no intervening pops, popping returns exactly the
most recent N mod 16 events, in push order (so for N ≤ 15 all N events are
returned in order; every 16th push without a pop makes the cursors collide
and all pending events are lost, rather than only the oldest). -/
theorem C2_amended (l : List Nat) :
    drain (pushAll initState l) = l.drop (l.length - l.length % BUFFER_SIZE) := by
  have h := pushAll_repr l initState [] init_repr
  rw [foldl_aPush_drop] at h
  have hlen : (l.drop (l.length - l.length % 16)).length ≤ BUFFER_SIZE := by
    rw [List.length_drop]
    unfold BUFFER_SIZE
    omega
  exact drainAux_repr _ _ _ h hlen

/- ------------------------------------------------------------------ -/
/- Well-formedness invariant for the scan/dispatch state.             -/
/- ------------------------------------------------------------------ -/

def WF (s : MState) : Prop :=
  s.writepointer < 16 ∧ s.keybuffer.length = 16 ∧
  s.keystate.length = 16 ∧ s.steadycounts.length = 128

theorem foldl_pres {α : Type} (P : MState → Prop) (f : MState → α → MState)
    (hf : ∀ s a, P s → P (f s a)) :
    ∀ (l : List α) (s : MState), P s → P (l.foldl f s) := by
  intro l
  induction l with
  | nil => intro s h; exact h
  | cons a l2 ih => intro s h; exact ih _ (hf s a h)

theorem scanKey_pres (inByte instrobe scancode : Nat) (s : MState)
    (h : WF s ∧ s.readpointer = s.readpointer) :
    WF (scanKey inByte instrobe scancode s) ∧
      (scanKey inByte instrobe scancode s).readpointer = s.readpointer := by
  obtain ⟨⟨hw, hb, hk, hc⟩, -⟩ := h
  have hmask : ∀ x : Nat, x &&& 15 < 16 := by
    intro x
    have := Nat.and_le_right (n := x) (m := 15)
    omega
  simp only [scanKey, push, BUFFER_SIZE, STEADY_THRESH, WF]
  split_ifs <;> simp_all [hmask]

theorem scanKey_inv (inByte instrobe scancode : Nat) (s : MState) (h : WF s) :
    WF (scanKey inByte instrobe scancode s) ∧
      (scanKey inByte instrobe scancode s).readpointer = s.readpointer :=
  scanKey_pres inByte instrobe scancode s ⟨h, rfl⟩

theorem scanBank_inv (inByte row bank ncols : Nat) (s : MState) (h : WF s) :
    WF (scanBank inByte row bank ncols s) ∧
      (scanBank inByte row bank ncols s).readpointer = s.readpointer := by
  unfold scanBank
  refine foldl_pres (fun t => WF t ∧ t.readpointer = s.readpointer) _ ?_ _ s ⟨h, rfl⟩
  intro t col ⟨ht, hr⟩
  obtain ⟨h1, h2⟩ := scanKey_inv inByte (1 <<< col) (GETSCAN row bank col) t ht
  exact ⟨h1, by rw [h2, hr]⟩

theorem isr_inv (inp : Nat → Nat → Nat) (s : MState) (h : WF s) :
    WF (isr inp s) ∧ (isr inp s).readpointer = s.readpointer := by
  unfold isr
  refine foldl_pres (fun t => WF t ∧ t.readpointer = s.readpointer) _ ?_ _ s ⟨h, rfl⟩
  intro t row ⟨ht, hr⟩
  split
  · obtain ⟨h1, h2⟩ := scanBank_inv (inp row 0) row 0 8 t ht
    obtain ⟨h3, h4⟩ := scanBank_inv (inp row 1) row 1 7 _ h1
    exact ⟨h3, by rw [h4, h2, hr]⟩
  · obtain ⟨h1, h2⟩ := scanBank_inv (inp row 0) row 0 8 t ht
    exact ⟨h1, by rw [h2, hr]⟩

/-- C10: safety of the index arithmetic.  Under the well-formedness
invariant (cursors below 16, arrays of their declared sizes), a scan-cycle
interrupt preserves the invariant and never moves the read cursor; the
dispatch-side pop keeps the read cursor below 16 and never moves the write
cursor; every (row, bank, col) triple the scan loops visit yields a
scancode at most 0x57, hence below 128 and with byte index below 16; and
for such scancodes bit 7 of the event byte cleanly separates key-down
(scancode) from key-up (scancode ||| 0x80). -/
theorem C10_index_safety (inp : Nat → Nat → Nat) (s : MState) (h : WF s) :
    (WF (isr inp s) ∧ (isr inp s).readpointer = s.readpointer) ∧
    (∀ t : MState, t.readpointer < 16 →
      (pollEvent t).1.readpointer < 16 ∧
      (pollEvent t).1.writepointer = t.writepointer) ∧
    (∀ row : Nat, row < 6 → ∀ bank : Nat, bank < (if row < 5 then 2 else 1) →
      ∀ col : Nat, col < (if bank = 0 then 8 else 7) →
      GETSCAN row bank col ≤ 0x57 ∧ GETSCAN row bank col < 128 ∧
      GETSCAN row bank col >>> 3 < 16) ∧
    (∀ sc : Nat, sc ≤ 0x57 →
      Nat.testBit sc 7 = false ∧ Nat.testBit (sc ||| 0x80) 7 = true ∧
      (sc ||| 0x80) &&& 0x7F = sc) := by
  refine ⟨isr_inv inp s h, ?_, by decide, by decide⟩
  intro t ht
  simp only [pollEvent, BUFFER_SIZE]
  have hm := Nat.and_le_right (n := t.readpointer + 1) (m := 15)
  split_ifs <;> simp <;> omega

/-- C10 witness at a concrete state and input. -/
theorem C10_index_safety_witness :
    (WF (isr (fun _ _ => 255) initState) ∧
      (isr (fun _ _ => 255) initState).readpointer = initState.readpointer) ∧
    (∀ t : MState, t.readpointer < 16 →
      (pollEvent t).1.readpointer < 16 ∧
      (pollEvent t).1.writepointer = t.writepointer) ∧
    (∀ row : Nat, row < 6 → ∀ bank : Nat, bank < (if row < 5 then 2 else 1) →
      ∀ col : Nat, col < (if bank = 0 then 8 else 7) →
      GETSCAN row bank col ≤ 0x57 ∧ GETSCAN row bank col < 128 ∧
      GETSCAN row bank col >>> 3 < 16) ∧
    (∀ sc : Nat, sc ≤ 0x57 →
      Nat.testBit sc 7 = false ∧ Nat.testBit (sc ||| 0x80) 7 = true ∧
      (sc ||| 0x80) &&& 0x7F = sc) :=
  C10_index_safety (fun _ _ => 255) initState (by constructor <;> decide)

/- ------------------------------------------------------------------ -/
/- Dispatch-side claims: typematic arming, caps lock, commands.       -/
/- ------------------------------------------------------------------ -/

/-- C7: on every dispatched event, the typematic countdown is loaded with
the configured delay exactly when the event is a key-down whose scancode
is neither in the metas row (row 5) nor the caps-lock scancode; every
other event (any key-up, a metas-row key-down, the caps-lock key-down)
clears it to 0. -/
theorem C7_typematic_arming (row bank col : Nat) (up : Bool) (s : MState)
    (hrow : row < 6) (hbank : bank < 2) (hcol : col < 8)
    (hev : s.lastevent =
      if up then GETSCAN row bank col ||| 0x80 else GETSCAN row bank col) :
    (handleEvent s).1.keydowntimer =
      if up = false ∧ row ≠ 5 ∧ GETSCAN row bank col ≠ KEY_CAPS_LOCK then
        s.typematicdelay
      else 0 := by
  interval_cases row <;> interval_cases bank <;> interval_cases col <;>
    cases up <;>
    simp_all +decide [handleEvent, GETSCAN, KEY_CAPS_LOCK] <;>
    split <;> rfl

/-- C7 witness: key-down of scancode 0x12 (row 1, bank 0, col 2) arms the
countdown with the configured delay. -/
theorem C7_typematic_arming_witness :
    (handleEvent { initState with lastevent := 0x12 }).1.keydowntimer =
      { initState with lastevent := 0x12 }.typematicdelay := by
  have h := C7_typematic_arming 1 0 2 false { initState with lastevent := 0x12 }
    (by decide) (by decide) (by decide) (by decide)
  simpa using h

/-- C8: a dispatched caps-lock key-down toggles the latch, writing the
synthetic down byte and lighting the LED when the latch was off, and the
synthetic up byte and clearing the LED when it was on; a dispatched
caps-lock key-up writes nothing and leaves latch and LED unchanged. -/
theorem C8_capslock_latch (s : MState) :
    (s.lastevent = KEY_CAPS_LOCK → s.capslockon = false →
      (handleEvent s).1.capslockon = true ∧ (handleEvent s).1.capsLED = true ∧
      (handleEvent s).2 = [KEY_CAPS_LOCK]) ∧
    (s.lastevent = KEY_CAPS_LOCK → s.capslockon = true →
      (handleEvent s).1.capslockon = false ∧
      (handleEvent s).1.capsLED = false ∧
      (handleEvent s).2 = [KEY_CAPS_LOCK ||| 0x80]) ∧
    (s.lastevent = KEY_CAPS_LOCK ||| 0x80 →
      (handleEvent s).2 = [] ∧
      (handleEvent s).1.capslockon = s.capslockon ∧
      (handleEvent s).1.capsLED = s.capsLED) := by
  refine ⟨fun h1 h2 => ?_, fun h1 h2 => ?_, fun h1 => ?_⟩ <;>
    simp_all +decide [handleEvent, KEY_CAPS_LOCK]

/-- C8 witness: concrete caps-lock down event with the latch off. -/
theorem C8_capslock_latch_witness :
    (handleEvent { initState with lastevent := 0x30 }).1.capslockon = true ∧
    (handleEvent { initState with lastevent := 0x30 }).1.capsLED = true ∧
    (handleEvent { initState with lastevent := 0x30 }).2 = [KEY_CAPS_LOCK] :=
  (C8_capslock_latch { initState with lastevent := 0x30 }).1 rfl rfl

/-- C9: a command byte whose type field is none of REGULAR, DELAY, RATE,
or whose REGULAR value exceeds COM_INIT, leaves the state unchanged. -/
theorem C9_unknown_command_ignored (c : Nat) (s : MState)
    (h : c &&& COM_TYPE_MASK = 0xC0 ∨
        (c &&& COM_TYPE_MASK = COM_TYPE_REGULAR ∧
          COM_INIT < c &&& COM_VALUE_MASK)) :
    processCommand c s = s := by
  simp only [COM_TYPE_MASK, COM_TYPE_REGULAR, COM_INIT, COM_VALUE_MASK] at h
  simp only [processCommand, COM_TYPE_MASK, COM_TYPE_REGULAR, COM_TYPE_DELAY,
    COM_TYPE_RATE, COM_VALUE_MASK, COM_RED_LED_OFF, COM_RED_LED_ON,
    COM_GREEN_LED_OFF, COM_GREEN_LED_ON, COM_BLUE_LED_OFF, COM_BLUE_LED_ON,
    COM_INIT]
  rcases h with h1 | ⟨h1, h2⟩
  · rw [if_neg (by omega), if_neg (by omega), if_neg (by omega)]
  · rw [if_pos h1, if_neg (by omega), if_neg (by omega), if_neg (by omega),
      if_neg (by omega), if_neg (by omega), if_neg (by omega),
      if_neg (by omega)]

/-- C9 witness: byte 0xC5 (type 11) and byte 0x07 (REGULAR, value 7) are
both ignored. -/
theorem C9_unknown_command_ignored_witness :
    processCommand 0xC5 initState = initState ∧
    processCommand 0x07 initState = initState :=
  ⟨C9_unknown_command_ignored 0xC5 initState (Or.inl (by decide)),
   C9_unknown_command_ignored 0x07 initState (Or.inr (by decide))⟩

/-- C5 counterexample: re-initialize does not clear the running typematic
countdown nor the last event (they are locals of main untouched by the
COM_INIT case), so the claimed "typematic state cleared" fails: with a
countdown of 7 ticks pending, it is still 7 after the command, and the
repeat will still fire. -/
theorem C5_counterexample :
    (processCommand COM_INIT
      { initState with keydowntimer := 7, lastevent := 0x15 }).keydowntimer = 7 ∧
    (processCommand COM_INIT
      { initState with keydowntimer := 7, lastevent := 0x15 }).lastevent = 0x15 ∧
    (7 : Nat) ≠ 0 := by
  refine ⟨by decide, by decide, by decide⟩

/-- C5 amended: processing COM_INIT resets both queue cursors, zeroes the
whole keystate bitmap and all debounce counters, clears the caps-lock
latch, restores the default typematic delay and rate, and switches the
RGB and caps-lock LEDs off — but it leaves the running typematic countdown
and the last dispatched event unchanged (and does not erase stale queue
slots, which the reset cursors make unreachable). -/
theorem C5_reinit (s : MState) :
    (processCommand COM_INIT s).readpointer = 0 ∧
    (processCommand COM_INIT s).writepointer = 0 ∧
    (processCommand COM_INIT s).keystate = List.replicate 16 0 ∧
    (processCommand COM_INIT s).steadycounts = List.replicate 128 0 ∧
    (processCommand COM_INIT s).capslockon = false ∧
    (processCommand COM_INIT s).typematicdelay = DEFAULT_TYPEMATIC_DELAY ∧
    (processCommand COM_INIT s).typematicrate = DEFAULT_TYPEMATIC_RATE ∧
    (processCommand COM_INIT s).portE = 0 ∧
    (processCommand COM_INIT s).capsLED = false ∧
    (processCommand COM_INIT s).keydowntimer = s.keydowntimer ∧
    (processCommand COM_INIT s).lastevent = s.lastevent ∧
    (processCommand COM_INIT s).keybuffer = s.keybuffer := by
  simp +decide [processCommand, initkeybuffer, COM_INIT, COM_TYPE_MASK,
    COM_TYPE_REGULAR, COM_VALUE_MASK, COM_RED_LED_OFF, COM_RED_LED_ON,
    COM_GREEN_LED_OFF, COM_GREEN_LED_ON, COM_BLUE_LED_OFF, COM_BLUE_LED_ON]

def rateCmdState : MState :=
  { processCommand 0x8A initState with keydowntimer := 1, lastevent := 0x15 }

/-- C1: the code contradicts the claim on the reload value.  Command 0x8A
(type RATE, value 10) sets typematicrate to 40, yet when the armed
countdown expires the code re-emits the last event and reloads the
countdown with the hardcoded literal 100, not the configured rate:
typematicrate is never read anywhere in the program. -/
theorem C1_rate_not_used :
    (processCommand 0x8A initState).typematicrate = 40 ∧
    (typematicTick rateCmdState).2 = [0x15] ∧
    (typematicTick rateCmdState).1.keydowntimer = 100 ∧
    (100 : Nat) ≠ 40 := by
  refine ⟨by decide, by decide, by decide, by decide⟩

/- ------------------------------------------------------------------ -/
/- Debounce behavior: concrete scan traces and the per-key dynamics.  -/
/- ------------------------------------------------------------------ -/

/- Raw matrix input with only the key at row 0, bank 0, column 0
   (scancode 0) pressed: its input bit reads low, all others high. -/
def pressK0 : Nat → Nat → Nat :=
  fun row bank => if row = 0 ∧ bank = 0 then 254 else 255

/- Raw matrix input with every key released (pull-ups high). -/
def idleIn : Nat → Nat → Nat := fun _ _ => 255

/- Key 0 closed for 2 scan cycles (fewer than STEADY_THRESH), then open
   again for 6 cycles. -/
def bounceRaw : List (Nat → Nat → Nat) :=
  [pressK0, pressK0, idleIn, idleIn, idleIn, idleIn, idleIn, idleIn]

/- The states the scan walks through while key 0 bounces: only the
   keystate byte 0, the steadycounts entry 0, the write cursor and the
   buffer ever change. -/
def kSt (b c w : Nat) (buf : List Nat) : MState :=
  { initState with keystate := b :: List.replicate 15 0,
                   steadycounts := c :: List.replicate 127 0,
                   writepointer := w, keybuffer := buf }

def buf0 : List Nat := List.replicate 16 0
def bufA : List Nat := buf0.set 0 0x80
def bufB : List Nat := bufA.set 1 0x80

/- One scan cycle at a time (kept separate so each evaluation stays
   shallow): the two closed samples, the six open samples ending in the
   first committed event, and the same again for a second bounce. -/
theorem scanStep1 : isr pressK0 initState = kSt 1 2 0 buf0 := by decide
theorem scanStep2 : isr pressK0 (kSt 1 2 0 buf0) = kSt 1 3 0 buf0 := by decide
theorem scanStep3 : isr idleIn (kSt 1 3 0 buf0) = kSt 0 2 0 buf0 := by decide
theorem scanStep4 : isr idleIn (kSt 0 2 0 buf0) = kSt 0 3 0 buf0 := by decide
theorem scanStep5 : isr idleIn (kSt 0 3 0 buf0) = kSt 0 4 0 buf0 := by decide
theorem scanStep6 : isr idleIn (kSt 0 4 0 buf0) = kSt 0 5 0 buf0 := by decide
theorem scanStep7 : isr idleIn (kSt 0 5 0 buf0) = kSt 0 6 0 buf0 := by decide
theorem scanStep8 : isr idleIn (kSt 0 6 0 buf0) = kSt 0 0 1 bufA := by decide
theorem scanStep9 : isr pressK0 (kSt 0 0 1 bufA) = kSt 1 2 1 bufA := by decide
theorem scanStep10 : isr pressK0 (kSt 1 2 1 bufA) = kSt 1 3 1 bufA := by decide
theorem scanStep11 : isr idleIn (kSt 1 3 1 bufA) = kSt 0 2 1 bufA := by decide
theorem scanStep12 : isr idleIn (kSt 0 2 1 bufA) = kSt 0 3 1 bufA := by decide
theorem scanStep13 : isr idleIn (kSt 0 3 1 bufA) = kSt 0 4 1 bufA := by decide
theorem scanStep14 : isr idleIn (kSt 0 4 1 bufA) = kSt 0 5 1 bufA := by decide
theorem scanStep15 : isr idleIn (kSt 0 5 1 bufA) = kSt 0 6 1 bufA := by decide
theorem scanStep16 : isr idleIn (kSt 0 6 1 bufA) = kSt 0 0 2 bufB := by decide

theorem bounce_once : runScan bounceRaw initState = kSt 0 0 1 bufA := by
  simp only [runScan, bounceRaw, List.foldl_cons, List.foldl_nil,
    scanStep1, scanStep2, scanStep3, scanStep4, scanStep5, scanStep6,
    scanStep7, scanStep8]

theorem bounce_twice :
    runScan (bounceRaw ++ bounceRaw) initState = kSt 0 0 2 bufB := by
  simp only [runScan, bounceRaw, List.cons_append, List.nil_append,
    List.foldl_cons, List.foldl_nil,
    scanStep1, scanStep2, scanStep3, scanStep4, scanStep5, scanStep6,
    scanStep7, scanStep8, scanStep9, scanStep10, scanStep11, scanStep12,
    scanStep13, scanStep14, scanStep15, scanStep16]

/-- C3 counterexample: a 2-cycle closure of key 0 (fewer than
STEADY_THRESH = 5 cycles) followed by a return to the open level does not
produce zero events: one event is appended to the queue for that key (the
byte 0x80, a key-up of scancode 0). -/
theorem C3_counterexample :
    (runScan bounceRaw initState).writepointer = 1 ∧
    (runScan bounceRaw initState).keybuffer.getD 0 0 = 0x80 ∧
    initState.writepointer = 0 := by
  rw [bounce_once]
  refine ⟨by decide, by decide, by decide⟩

/-- C4 counterexample: two successive 2-cycle bounces of key 0 put two
consecutive key-up events (byte 0x80, scancode 0) in the queue, so the
emitted stream for scancode 0 does not alternate strictly. -/
theorem C4_counterexample :
    (runScan (bounceRaw ++ bounceRaw) initState).writepointer = 2 ∧
    (runScan (bounceRaw ++ bounceRaw) initState).keybuffer.getD 0 0 = 0x80 ∧
    (runScan (bounceRaw ++ bounceRaw) initState).keybuffer.getD 1 0 = 0x80 := by
  rw [bounce_twice]
  refine ⟨by decide, by decide, by decide⟩

/-- C6 counterexample: on the first scan cycle that samples key 0 closed,
the KeyState bit for scancode 0 flips from 0 to 1 while no event is
appended (the write cursor stays 0) — the flip and the event are not
atomic, and a flip can happen without an event. -/
theorem C6_counterexample :
    (runScan [pressK0] initState).keystate.getD 0 0 = 1 ∧
    initState.keystate.getD 0 0 = 0 ∧
    (runScan [pressK0] initState).writepointer = initState.writepointer := by
  have h : runScan [pressK0] initState = kSt 1 2 0 buf0 := by
    simp only [runScan, List.foldl_cons, List.foldl_nil, scanStep1]
  rw [h]
  refine ⟨by decide, by decide, by decide⟩

/-- C3 amended: a transition sustained for d cycles with 1 ≤ d <
STEADY_THRESH, followed by a return to the prior level, produces exactly
one event, and that event re-reports the prior level (because the keystate
bit flips back on the return and the still-running steadiness counter
commits it once the level has been steady for STEADY_THRESH + 1 further
cycles) — not zero events. -/
theorem C3_amended (st : Bool) (d : Nat) (h1 : 1 ≤ d) (h2 : d < STEADY_THRESH) :
    (debRun st 0 (List.replicate d (!st) ++
      List.replicate (STEADY_THRESH + 1) st)).2 = [st] := by
  simp only [STEADY_THRESH] at h2 ⊢
  interval_cases d <;> cases st <;> decide

/-- C3 amended witness: a 2-cycle bounce of a released key yields exactly
one key-up event. -/
theorem C3_amended_witness :
    (debRun false 0 (List.replicate 2 (!false) ++
      List.replicate (STEADY_THRESH + 1) false)).2 = [false] :=
  C3_amended false 2 (by decide) (by decide)

theorem debRun_append (l1 : List Bool) :
    ∀ (l2 : List Bool) (st : Bool) (cnt : Nat),
      debRun st cnt (l1 ++ l2) =
        ((debRun (debRun st cnt l1).1.1 (debRun st cnt l1).1.2 l2).1,
         (debRun st cnt l1).2 ++
           (debRun (debRun st cnt l1).1.1 (debRun st cnt l1).1.2 l2).2) := by
  induction l1 with
  | nil => intro l2 st cnt; simp [debRun]
  | cons r rs ih =>
    intro l2 st cnt
    simp only [List.cons_append, debRun]
    rcases hs : debStep r st cnt with ⟨⟨st1, cnt1⟩, ev⟩
    simp only [hs, ih l2 st1 cnt1]
    cases ev <;> simp [ih l2 st1 cnt1]

theorem debRun_steady (m : Nat) :
    ∀ st : Bool, debRun st 0 (List.replicate m st) = ((st, 0), []) := by
  induction m with
  | zero => intro st; rfl
  | succ k ih =>
    intro st
    have hstep : debStep st st 0 = ((st, 0), none) := by
      cases st <;> rfl
    simp only [List.replicate_succ, debRun, hstep, ih st]

theorem debRun_block (n : Nat) (st : Bool) (h : STEADY_THRESH + 1 ≤ n) :
    debRun st 0 (List.replicate n (!st)) = ((!st, 0), [!st]) := by
  obtain ⟨k, rfl⟩ : ∃ k, n = 6 + k :=
    ⟨n - 6, by simp only [STEADY_THRESH] at h; omega⟩
  rw [List.replicate_add, debRun_append]
  have h6 : debRun st 0 (List.replicate 6 (!st)) = ((!st, 0), [!st]) := by
    cases st <;> decide
  simp only [h6, debRun_steady k (!st), List.append_nil]

/- The raw sample stream made of consecutive constant blocks of strictly
   alternating level, starting opposite the initial keystate. -/
def altBlocks (st : Bool) : List Nat → List Bool
  | [] => []
  | n :: ns => List.replicate n (!st) ++ altBlocks (!st) ns

/- The strictly alternating event stream those blocks commit. -/
def altEvts (st : Bool) : Nat → List Bool
  | 0 => []
  | k + 1 => (!st) :: altEvts (!st) k

theorem debRun_altBlocks (ns : List Nat) :
    ∀ st : Bool, (∀ n ∈ ns, STEADY_THRESH + 1 ≤ n) →
      debRun st 0 (altBlocks st ns) =
        ((if ns.length % 2 = 0 then st else !st, 0), altEvts st ns.length) := by
  induction ns with
  | nil => intro st h; simp [altBlocks, altEvts, debRun]
  | cons n ns2 ih =>
    intro st h
    simp only [altBlocks]
    rw [debRun_append]
    simp only [debRun_block n st (h n (by simp)),
      ih (!st) (fun m hm => h m (List.mem_cons_of_mem _ hm))]
    have hp : (ns2.length + 1) % 2 = if ns2.length % 2 = 0 then 1 else 0 := by
      by_cases hc : ns2.length % 2 = 0 <;> simp [hc] <;> omega
    by_cases hc : ns2.length % 2 = 0 <;>
      simp [altEvts, hp, hc, List.length_cons]

theorem altEvts_chain (k : Nat) :
    ∀ st : Bool, List.Chain' (fun a b => a ≠ b) (altEvts st k) := by
  induction k with
  | zero => intro st; simp [altEvts]
  | succ m ih =>
    intro st
    cases m with
    | zero => simp [altEvts]
    | succ m2 =>
      simp only [altEvts, Bool.not_not]
      rw [List.chain'_cons]
      refine ⟨by cases st <;> decide, ?_⟩
      have := ih (!st)
      simpa [altEvts, Bool.not_not] using this

/-- C4 amended: the strict down/up alternation of a key's emitted event
stream holds for raw sample streams in which every level change persists
for at least STEADY_THRESH + 1 consecutive scan cycles; with shorter
bounces the stream can contain two consecutive events of the same
direction (see the counterexample). -/
theorem C4_amended (st : Bool) (ns : List Nat)
    (h : ∀ n ∈ ns, STEADY_THRESH + 1 ≤ n) :
    List.Chain' (fun a b => a ≠ b) ((debRun st 0 (altBlocks st ns)).2) := by
  rw [debRun_altBlocks ns st h]
  exact altEvts_chain ns.length st

/-- C4 amended witness: two sustained blocks (6 then 7 cycles) yield an
alternating stream. -/
theorem C4_amended_witness :
    List.Chain' (fun a b => a ≠ b)
      ((debRun false 0 (altBlocks false [6, 7])).2) :=
  C4_amended false [6, 7] (by decide)

/-- C6 amended: for every raw sample, the per-key debounce core flips the
KeyState bit exactly when the raw sample mismatches it, and such a flip
cycle never emits an event; an event is emitted exactly on a cycle whose
raw sample matches the bit while the steadiness counter exceeds
STEADY_THRESH, and the emitted direction always equals the (current)
KeyState bit.  Flips and events therefore happen on different cycles and
are not in one-to-one correspondence. -/
theorem C6_amended (raw st : Bool) (cnt : Nat) :
    ((debStep raw st cnt).1.1 ≠ st ↔ raw ≠ st) ∧
    (raw ≠ st → (debStep raw st cnt).2 = none) ∧
    (raw = st → ((debStep raw st cnt).2 = some st ↔ STEADY_THRESH < cnt)) ∧
    (∀ d : Bool, (debStep raw st cnt).2 = some d →
      d = (debStep raw st cnt).1.1) := by
  cases raw <;> cases st <;>
    simp [debStep, STEADY_THRESH] <;>
    split_ifs <;> simp_all

/-- C6 amended witness: first closed sample of an open key flips the bit
and emits nothing. -/
theorem C6_amended_witness :
    ((debStep true false 3).1.1 ≠ false ↔ true ≠ false) ∧
    (true ≠ false → (debStep true false 3).2 = none) ∧
    (true = false → ((debStep true false 3).2 = some false ↔
      STEADY_THRESH < 3)) ∧
    (∀ d : Bool, (debStep true false 3).2 = some d →
      d = (debStep true false 3).1.1) :=
  C6_amended true false 3

/- ------------------------------------------------------------------ -/
/- Faithfulness of the per-key abstraction: one scanKey call acts on  -/
/- the key's keystate bit, counter and the queue exactly as debStep.  -/
/- ------------------------------------------------------------------ -/

/- The key's keystate bit as the C tests read it: the bitmap byte masked
   with the column strobe (main.c lines 343, 353, 364, 368). -/
def keyBit (s : MState) (scancode : Nat) : Bool :=
  decide ((s.keystate.getD (scancode >>> 3) 0) &&& (1 <<< (scancode % 8)) ≠ 0)

/- The key's steadiness counter. -/
def keyCnt (s : MState) (scancode : Nat) : Nat :=
  s.steadycounts.getD scancode 0

theorem and_two_pow_eq (x i : Nat) :
    x &&& 2 ^ i = if x.testBit i then 2 ^ i else 0 := by
  apply Nat.eq_of_testBit_eq
  intro j
  rw [Nat.testBit_land, Nat.testBit_two_pow]
  by_cases h : i = j
  · subst h
    cases hx : x.testBit i <;> simp [hx]
  · cases hx : x.testBit i <;>
      cases hxi : x.testBit j <;>
      simp [h, hx, hxi, Nat.testBit_two_pow, Nat.zero_testBit]

theorem and_two_pow_ne_zero (x i : Nat) :
    (x &&& 2 ^ i ≠ 0) ↔ x.testBit i = true := by
  rw [and_two_pow_eq]
  cases h : x.testBit i <;> simp

theorem or_two_pow_testBit (x i : Nat) : (x ||| 2 ^ i).testBit i = true := by
  rw [Nat.testBit_lor, Nat.testBit_two_pow_self, Bool.or_true]

theorem clear_bit_testBit (x i : Nat) (h : i < 8) :
    (x &&& (0xFF ^^^ 2 ^ i)).testBit i = false := by
  rw [Nat.testBit_land, Nat.testBit_xor]
  have h255 : (0xFF : Nat).testBit i = true := by
    have : (0xFF : Nat) = 2 ^ 8 - 1 := by norm_num
    rw [this, Nat.testBit_two_pow_sub_one]
    simpa using h
  rw [h255, Nat.testBit_two_pow_self]
  simp

/- One scanKey call is exactly one debStep on the key's bit and counter,
   with a committed event becoming a push of the matching event byte. -/
theorem scanKey_refines_debStep (inByte scancode : Nat) (s : MState)
    (hsc : scancode < 128) (hks : s.keystate.length = 16)
    (hsd : s.steadycounts.length = 128) :
    keyBit (scanKey inByte (1 <<< (scancode % 8)) scancode s) scancode =
      (debStep (decide (inByte &&& (1 <<< (scancode % 8)) = 0))
        (keyBit s scancode) (keyCnt s scancode)).1.1 ∧
    keyCnt (scanKey inByte (1 <<< (scancode % 8)) scancode s) scancode =
      (debStep (decide (inByte &&& (1 <<< (scancode % 8)) = 0))
        (keyBit s scancode) (keyCnt s scancode)).1.2 ∧
    ((debStep (decide (inByte &&& (1 <<< (scancode % 8)) = 0))
        (keyBit s scancode) (keyCnt s scancode)).2 = none →
      (scanKey inByte (1 <<< (scancode % 8)) scancode s).writepointer =
          s.writepointer ∧
      (scanKey inByte (1 <<< (scancode % 8)) scancode s).keybuffer =
          s.keybuffer) ∧
    (∀ d : Bool,
      (debStep (decide (inByte &&& (1 <<< (scancode % 8)) = 0))
        (keyBit s scancode) (keyCnt s scancode)).2 = some d →
      (scanKey inByte (1 <<< (scancode % 8)) scancode s).writepointer =
          (s.writepointer + 1) &&& (BUFFER_SIZE - 1) ∧
      (scanKey inByte (1 <<< (scancode % 8)) scancode s).keybuffer =
          s.keybuffer.set s.writepointer
            (if d then scancode else scancode ||| 0x80)) := by
  have hI : (1 : Nat) <<< (scancode % 8) = 2 ^ (scancode % 8) :=
    Nat.one_shiftLeft _
  have hi8 : scancode % 8 < 8 := Nat.mod_lt _ (by norm_num)
  have hcnt_len : scancode < s.steadycounts.length := by omega
  have hbit_len : scancode >>> 3 < s.keystate.length := by
    rw [hks, Nat.shiftRight_eq_div_pow]
    omega
  by_cases h1 : inByte &&& (1 <<< (scancode % 8)) = 0 <;>
    by_cases h2 : (s.keystate.getD (scancode >>> 3) 0) &&&
      (1 <<< (scancode % 8)) = 0
  · -- pressed sample, bit was clear: flip the bit on, restart the counter
    have hA : scanKey inByte (1 <<< (scancode % 8)) scancode s =
        { s with
            steadycounts := (s.steadycounts.set scancode 1).set scancode 2,
            keystate := s.keystate.set (scancode >>> 3)
              ((s.keystate.getD (scancode >>> 3) 0) |||
                (1 <<< (scancode % 8))) } := by
      simp only [scanKey, if_pos h1, if_pos h2]
      try dsimp only
      rw [getD_set_eq _ scancode 1 hcnt_len,
        if_neg (show ¬ (1 > STEADY_THRESH) by decide),
        if_pos (show 1 > 0 by decide)]
    have hb : keyBit s scancode = false := by
      simp only [keyBit]
      exact decide_eq_false (fun hn => hn h2)
    have hstep : debStep (decide (inByte &&& (1 <<< (scancode % 8)) = 0))
        (keyBit s scancode) (keyCnt s scancode) = ((true, 2), none) := by
      simp [debStep, h1, hb, STEADY_THRESH]
    rw [hA, hstep]
    refine ⟨?_, ?_, fun _ => ⟨rfl, rfl⟩, fun d hd => by simp at hd⟩
    · show keyBit _ scancode = true
      simp only [keyBit]
      try dsimp only
      rw [getD_set_eq _ _ _ hbit_len, hI]
      simp [and_two_pow_ne_zero, or_two_pow_testBit]
    · show keyCnt _ scancode = 2
      simp only [keyCnt]
      try dsimp only
      exact getD_set_eq _ scancode 2 (by simpa using hcnt_len)
  · -- pressed sample, bit already set: pure counter behavior
    have hb : keyBit s scancode = true := by
      simp only [keyBit]
      exact decide_eq_true h2
    have hraw : decide (inByte &&& (1 <<< (scancode % 8)) = 0) = true :=
      decide_eq_true h1
    rcases Nat.lt_or_ge STEADY_THRESH (keyCnt s scancode) with hC | hC
    · -- counter beyond threshold: commit a down event
      have hA : scanKey inByte (1 <<< (scancode % 8)) scancode s =
          { s with
              keybuffer := s.keybuffer.set s.writepointer scancode,
              writepointer := (s.writepointer + 1) &&& (BUFFER_SIZE - 1),
              steadycounts := s.steadycounts.set scancode 0 } := by
        simp only [scanKey, if_pos h1, if_neg h2]
        rw [if_pos (show s.steadycounts.getD scancode 0 > STEADY_THRESH
          from hC)]
        simp only [push]
      have hstep : debStep (decide (inByte &&& (1 <<< (scancode % 8)) = 0))
          (keyBit s scancode) (keyCnt s scancode) =
          ((true, 0), some true) := by
        simp [debStep, h1, hb, hC]
      rw [hA, hstep]
      refine ⟨?_, ?_, fun hnone => by simp at hnone, fun d hd => ?_⟩
      · exact hb
      · show keyCnt _ scancode = 0
        simp only [keyCnt]
        try dsimp only
        exact getD_set_eq _ scancode 0 hcnt_len
      · have hdv : d = true := by simpa using hd.symm
        subst hdv
        exact ⟨rfl, by simp⟩
    · rcases Nat.eq_zero_or_pos (keyCnt s scancode) with hC0 | hC0
      · have hZ : s.steadycounts.getD scancode 0 = 0 := hC0
        have hA : scanKey inByte (1 <<< (scancode % 8)) scancode s = s := by
          simp only [scanKey, if_pos h1, if_neg h2]
          rw [if_neg (show ¬ (s.steadycounts.getD scancode 0 > STEADY_THRESH)
              from Nat.not_lt.mpr hC),
            if_neg (show ¬ (s.steadycounts.getD scancode 0 > 0) by omega)]
        have hstep : debStep (decide (inByte &&& (1 <<< (scancode % 8)) = 0))
            (keyBit s scancode) (keyCnt s scancode) =
            ((true, keyCnt s scancode), none) := by
          have hZk : keyCnt s scancode = 0 := hC0
          simp [debStep, h1, hb, hZk, STEADY_THRESH]
        rw [hA, hstep]
        exact ⟨hb, rfl, fun _ => ⟨rfl, rfl⟩, fun d hd => by simp at hd⟩
      · have hPg : s.steadycounts.getD scancode 0 > 0 := hC0
        have hA : scanKey inByte (1 <<< (scancode % 8)) scancode s =
            { s with steadycounts := s.steadycounts.set scancode (s.steadycounts.getD scancode 0 + 1) } := by
          simp only [scanKey, if_pos h1, if_neg h2]
          rw [if_neg (show ¬ (s.steadycounts.getD scancode 0 > STEADY_THRESH)
              from Nat.not_lt.mpr hC),
            if_pos hPg]
        have hstep : debStep (decide (inByte &&& (1 <<< (scancode % 8)) = 0))
            (keyBit s scancode) (keyCnt s scancode) =
            ((true, keyCnt s scancode + 1), none) := by
          have hCn : ¬ (keyCnt s scancode > STEADY_THRESH) :=
            Nat.not_lt.mpr hC
          simp [debStep, h1, hb, hCn, hC0]
        rw [hA, hstep]
        refine ⟨hb, ?_, fun _ => ⟨rfl, rfl⟩, fun d hd => by simp at hd⟩
        show keyCnt _ scancode = keyCnt s scancode + 1
        simp only [keyCnt]
        try dsimp only
        exact getD_set_eq _ scancode _ hcnt_len
  · -- released sample, bit clear: pure counter behavior on an open key
    have hb : keyBit s scancode = false := by
      simp only [keyBit]
      exact decide_eq_false (fun hn => hn h2)
    have hraw : decide (inByte &&& (1 <<< (scancode % 8)) = 0) = false :=
      decide_eq_false h1
    have hdet : ¬ ((s.keystate.getD (scancode >>> 3) 0) &&&
        (1 <<< (scancode % 8)) ≠ 0) := fun hn => hn h2
    rcases Nat.lt_or_ge STEADY_THRESH (keyCnt s scancode) with hC | hC
    · have hA : scanKey inByte (1 <<< (scancode % 8)) scancode s =
          { s with
              keybuffer := s.keybuffer.set s.writepointer
                (scancode ||| 0x80),
              writepointer := (s.writepointer + 1) &&& (BUFFER_SIZE - 1),
              steadycounts := s.steadycounts.set scancode 0 } := by
        simp only [scanKey, if_neg h1, if_neg hdet, if_pos h2]
        rw [if_pos (show s.steadycounts.getD scancode 0 > STEADY_THRESH
          from hC)]
        simp only [push]
      have hstep : debStep (decide (inByte &&& (1 <<< (scancode % 8)) = 0))
          (keyBit s scancode) (keyCnt s scancode) =
          ((false, 0), some false) := by
        simp [debStep, h1, hb, hC]
      rw [hA, hstep]
      refine ⟨?_, ?_, fun hnone => by simp at hnone, fun d hd => ?_⟩
      · exact hb
      · show keyCnt _ scancode = 0
        simp only [keyCnt]
        try dsimp only
        exact getD_set_eq _ scancode 0 hcnt_len
      · have hdv : d = false := by simpa using hd.symm
        subst hdv
        exact ⟨rfl, by simp⟩
    · rcases Nat.eq_zero_or_pos (keyCnt s scancode) with hC0 | hC0
      · have hZ : s.steadycounts.getD scancode 0 = 0 := hC0
        have hA : scanKey inByte (1 <<< (scancode % 8)) scancode s = s := by
          simp only [scanKey, if_neg h1, if_neg hdet]
          rw [if_neg (show ¬ (s.steadycounts.getD scancode 0 > STEADY_THRESH)
              from Nat.not_lt.mpr hC),
            if_neg (show ¬ (s.steadycounts.getD scancode 0 > 0) by omega)]
        have hstep : debStep (decide (inByte &&& (1 <<< (scancode % 8)) = 0))
            (keyBit s scancode) (keyCnt s scancode) =
            ((false, keyCnt s scancode), none) := by
          have hZk : keyCnt s scancode = 0 := hC0
          simp [debStep, h1, hb, hZk, STEADY_THRESH]
        rw [hA, hstep]
        exact ⟨hb, rfl, fun _ => ⟨rfl, rfl⟩, fun d hd => by simp at hd⟩
      · have hPg : s.steadycounts.getD scancode 0 > 0 := hC0
        have hA : scanKey inByte (1 <<< (scancode % 8)) scancode s =
            { s with steadycounts := s.steadycounts.set scancode (s.steadycounts.getD scancode 0 + 1) } := by
          simp only [scanKey, if_neg h1, if_neg hdet]
          rw [if_neg (show ¬ (s.steadycounts.getD scancode 0 > STEADY_THRESH)
              from Nat.not_lt.mpr hC),
            if_pos hPg]
        have hstep : debStep (decide (inByte &&& (1 <<< (scancode % 8)) = 0))
            (keyBit s scancode) (keyCnt s scancode) =
            ((false, keyCnt s scancode + 1), none) := by
          have hCn : ¬ (keyCnt s scancode > STEADY_THRESH) :=
            Nat.not_lt.mpr hC
          simp [debStep, h1, hb, hCn, hC0]
        rw [hA, hstep]
        refine ⟨hb, ?_, fun _ => ⟨rfl, rfl⟩, fun d hd => by simp at hd⟩
        show keyCnt _ scancode = keyCnt s scancode + 1
        simp only [keyCnt]
        try dsimp only
        exact getD_set_eq _ scancode _ hcnt_len
  · -- released sample, bit set: flip the bit off, restart the counter
    have hdet : (s.keystate.getD (scancode >>> 3) 0) &&&
        (1 <<< (scancode % 8)) ≠ 0 := h2
    have hA : scanKey inByte (1 <<< (scancode % 8)) scancode s =
        { s with
            steadycounts := (s.steadycounts.set scancode 1).set scancode 2,
            keystate := s.keystate.set (scancode >>> 3)
              ((s.keystate.getD (scancode >>> 3) 0) &&&
                (0xFF ^^^ (1 <<< (scancode % 8)))) } := by
      simp only [scanKey, if_neg h1, if_pos hdet]
      try dsimp only
      rw [getD_set_eq _ scancode 1 hcnt_len,
        if_neg (show ¬ (1 > STEADY_THRESH) by decide),
        if_pos (show 1 > 0 by decide)]
    have hb : keyBit s scancode = true := by
      simp only [keyBit]
      exact decide_eq_true h2
    have hstep : debStep (decide (inByte &&& (1 <<< (scancode % 8)) = 0))
        (keyBit s scancode) (keyCnt s scancode) = ((false, 2), none) := by
      simp [debStep, h1, hb, STEADY_THRESH]
    rw [hA, hstep]
    refine ⟨?_, ?_, fun _ => ⟨rfl, rfl⟩, fun d hd => by simp at hd⟩
    · show keyBit _ scancode = false
      simp only [keyBit]
      try dsimp only
      rw [getD_set_eq _ _ _ hbit_len, hI]
      simp [and_two_pow_ne_zero, clear_bit_testBit _ _ hi8]
    · show keyCnt _ scancode = 2
      simp only [keyCnt]
      try dsimp only
      exact getD_set_eq _ scancode 2 (by simpa using hcnt_len)

end Keyboard
